import Mathlib

/-!
Verification of the event ingestion and reply-dispatch pipeline of a Bluesky
bot (single source file, bot.py).  Python strings are modelled as lists of
characters (the bot only manipulates ASCII text in the fragments verified
here); Python `in` on strings is substring containment, `str.split()` splits
on whitespace runs, `str.strip()` removes surrounding whitespace, and
`str.lower` and `str.upper` are character-wise case maps.
-/

/-- Character list of a string literal. -/
def str (s : String) : List Char := s.data

/-- Python whitespace (ASCII subset), as matched by regex class \s and str.split(). -/
def pySpace (c : Char) : Bool :=
  c == ' ' || c == '\t' || c == '\n' || c == '\r' || c == '\x0b' || c == '\x0c'

/-- Python str.lower, character-wise (ASCII). -/
def pyLower (l : List Char) : List Char := l.map Char.toLower

/-- Python str.upper, character-wise (ASCII). -/
def pyUpper (l : List Char) : List Char := l.map Char.toUpper

/-- Does the second list start with the first one? -/
def startsWith : List Char → List Char → Bool
  | [], _ => true
  | _ :: _, [] => false
  | a :: as, b :: bs => a == b && startsWith as bs

/-- Python substring containment: needle in haystack. -/
def pyIn : List Char → List Char → Bool
  | n, [] => n.isEmpty
  | n, h :: t => startsWith n (h :: t) || pyIn n t

/-! ## Dedup cache (processed_uris_this_run, bot.py lines 260, 985-988, 2177-2180, 2629-2638)

The cache is a collections.OrderedDict used as an insertion-ordered set of
identity strings; it is modelled as a duplicate-free list in insertion order
(oldest first).  Assigning an existing key in an OrderedDict keeps its
position, so a duplicate insert leaves the list unchanged. -/

/-- bot.py lines 985-988 (and identically 2177-2180, 2635-2638): insert the
identity, then if the size exceeds MAX_PROCESSED_URIS_CACHE evict the single
oldest entry via popitem(last=False). -/
def mark_processed_uri (cache_max : Nat) (s : List String) (uri : String) : List String :=
  let s1 := if uri ∈ s then s else s ++ [uri]
  if cache_max < s1.length then s1.drop 1 else s1

/-- MAX_PROCESSED_URIS_CACHE default (bot.py line 144). -/
def MAX_PROCESSED_URIS_CACHE : Nat := 500

/-- bot.py lines 2629-2638 (check_and_process_dm_commands): membership test on
the dm key (line 2631, outside the lock) followed, only when absent, by the
locked insert-and-evict (lines 2635-2638).  Sequential composition of the two
steps; returns (already_seen, new cache). -/
def dm_mark_and_check (cache_max : Nat) (s : List String) (key : String) :
    Bool × List String :=
  if key ∈ s then (true, s) else (false, mark_processed_uri cache_max s key)

/-! ## Event queue (bot.py lines 267-275, 356-371) -/

/-- The relevant fields of the jetstream_stats dict (bot.py lines 269-275). -/
structure JetstreamStats where
  events_received : Nat
  events_dropped : Nat
deriving DecidableEq, Repr

/-- Capacity of jetstream_event_queue (bot.py line 267, maxsize=1000). -/
def JETSTREAM_QUEUE_CAPACITY : Nat := 1000

/-- bot.py lines 356-371 (enqueue_jetstream_event): put_nowait raises
queue.Full exactly when the queue holds capacity items; the except branch
increments events_dropped and returns False, the success branch appends the
event, increments events_received and returns True.  The function is total:
the only exception (queue.Full) is caught, and nothing blocks. -/
def enqueue_jetstream_event {α : Type} (capacity : Nat) (q : List α)
    (stats : JetstreamStats) (e : α) : Bool × List α × JetstreamStats :=
  if q.length < capacity then
    (true, q ++ [e], { stats with events_received := stats.events_received + 1 })
  else
    (false, q, { stats with events_dropped := stats.events_dropped + 1 })

/-! ## Content-policy failure classifier (bot.py lines 414-445) -/

/-- bot.py lines 420-424. -/
def policy_keywords : List (List Char) :=
  [str "content policy", str "safety", str "blocked", str "filtered",
   str "person_generation", str "inappropriate", str "violates",
   str "prohibited", str "restricted", str "harmful", str "unsafe",
   str "policy violation"]

/-- bot.py line 434. -/
def people_terms : List (List Char) :=
  [str "person", str "people", str "human", str "man", str "woman",
   str "child", str "individual", str "character"]

/-- bot.py lines 414-445 (is_content_policy_failure).  response_blocked models
truthiness of response_obj.prompt_feedback.block_reason; prompt is None or the
prompt string (Python truthiness of the string is the isEmpty test). -/
def is_content_policy_failure (error_msg : List Char) (response_blocked : Bool)
    (prompt : Option (List Char)) : Bool :=
  if error_msg.isEmpty then false
  else
    let error_lower := pyLower error_msg
    if policy_keywords.any (fun k => pyIn k error_lower) then true
    else if (match prompt with
             | some p =>
               !p.isEmpty &&
               (pyIn (str "no videos") error_lower || pyIn (str "no images") error_lower) &&
               people_terms.any (fun t => pyIn t (pyLower p))
             | none => false) then true
    else response_blocked

/-! ## Mention detection and the Jetstream relevance predicate
(bot.py lines 2052-2118) -/

/-- bot.py lines 2052-2068 (is_mention_of_bot): the three patterns are the
handle as configured, fully lowercased and fully uppercased, each preceded
by an at sign, tested by substring containment. -/
def is_mention_of_bot (handle : List Char) (post_text : List Char) : Bool :=
  if post_text.isEmpty then false
  else
    pyIn ('@' :: handle) post_text ||
    pyIn ('@' :: pyLower handle) post_text ||
    pyIn ('@' :: pyUpper handle) post_text

/-- The reply field of a Jetstream post record (bot.py lines 2101-2104). -/
structure ReplyUris where
  parent_uri : List Char
  root_uri : List Char
deriving DecidableEq, Repr

/-- The fields of a raw Jetstream event consulted by
should_process_jetstream_event; dict .get misses are none, record text
defaults to the empty string (bot.py lines 2070-2104). -/
structure JetstreamEvent where
  kind : Option String
  operation : Option String
  collection : Option String
  did : Option (List Char)
  record_text : List Char
  reply : Option ReplyUris
deriving DecidableEq, Repr

/-- bot.py lines 2070-2118 (should_process_jetstream_event): commit kind,
create operation, post collection, author not the bot, then either a mention
of the handle in the text, or a reply whose immediate parent URI contains the
bot DID (the root URI is read but unused in the decision). -/
def should_process_jetstream_event (bot_did : List Char) (bot_handle : List Char)
    (event : JetstreamEvent) : Bool :=
  if event.kind ≠ some "commit" then false
  else if event.operation ≠ some "create" then false
  else if event.collection ≠ some "app.bsky.feed.post" then false
  else if event.did = some bot_did then false
  else if is_mention_of_bot bot_handle event.record_text then true
  else
    match event.reply with
    | some r => !bot_did.isEmpty && pyIn bot_did r.parent_uri
    | none => false

/-! ## Thread views and the per-event pipeline
(bot.py lines 593-608, 976-1111, 2156-2277)

The Bluesky client is an external collaborator; its two calls used by the
pipeline prefix (get_post_thread and the single-URI get_posts) are modelled as
oracle functions inside an environment record.  Thread views are the nested
parent chain returned by get_post_thread. -/

/-- A com.atproto strong ref (uri, cid pair). -/
structure StrongRef where
  uri : String
  cid : String
deriving DecidableEq, Repr

/-- The record.reply field of a post record. -/
structure ReplyRecord where
  root : StrongRef
  parent : StrongRef
deriving DecidableEq, Repr

/-- A post as consulted by the pipeline prefix. -/
structure FeedPost where
  ref : StrongRef
  author_handle : List Char
  text : List Char
  reply : Option ReplyRecord
deriving DecidableEq, Repr

/-- A node of the get_post_thread response: either a ThreadViewPost with its
parent chain and direct replies, or a NotFoundPost/BlockedPost node (which
carries no parent attribute, so the length walk stops there). -/
inductive ThreadView where
  | threadViewPost (post : FeedPost) (parent : Option ThreadView) (replies : List FeedPost)
  | notThreadViewPost
deriving Repr

/-- bot.py lines 593-608 (get_thread_length): walk the parent chain counting
ThreadViewPost nodes; a non-ThreadViewPost node is not counted and ends the
walk. -/
def get_thread_length : ThreadView → Nat
  | .notThreadViewPost => 0
  | .threadViewPost _ none _ => 1
  | .threadViewPost _ (some tv) _ => 1 + get_thread_length tv

/-- External-call environment of the pipeline prefix: the configured handle,
the MAX_CONVERSATION_THREAD_DEPTH cap (bot.py line 143, default 50), the
get_post_thread oracle and the single-URI get_posts oracle (returning none
when the response does not hold exactly one post, or the call raises). -/
structure BskyEnv where
  bot_handle : List Char
  conversation_cap : Nat
  fetch_thread : String → Option ThreadView
  fetch_post : String → Option FeedPost

/-- The canned reply text (bot.py line 255). -/
def THREAD_DEPTH_LIMIT_MESSAGE : List Char :=
  str "Oh my, this thread has become quite the scholarly manuscript! To keep things tidy, if you'd like to ask something new, would you be a dear and start a new thread? Toodeloo!"

/-- Notification reason dispatched on in process_mention (bot.py lines 1051, 1062). -/
inductive Reason where
  | mention
  | reply
deriving DecidableEq, Repr

/-- How one run of the pipeline prefix for one event terminates.  Every
constructor except generate is a terminal stop before any content generation;
cannedSent records the one send_post call the depth-limit branch issues. -/
inductive MentionOutcome where
  | noThread
  | cannedSkipped
  | cannedSent (text : List Char) (root : StrongRef) (parent : StrongRef)
  | dupSkip
  | notReplyRecord
  | parentFetchFailed
  | userToUserSkip
  | generate
deriving DecidableEq, Repr

/-- bot.py lines 1012-1029 (and identically 2204-2221): fetch the immediate
parent of the target post and test whether it is the bot's own canned
depth-limit message (author is the bot and the canned text occurs in the
parent's text).  Any failure of the fetch falls through to false. -/
def parent_is_canned (env : BskyEnv) (target : FeedPost) : Bool :=
  match target.reply with
  | some r =>
    match env.fetch_post r.parent.uri with
    | some pp =>
      decide (pp.author_handle = env.bot_handle) && pyIn THREAD_DEPTH_LIMIT_MESSAGE pp.text
    | none => false
  | none => false

/-- bot.py lines 1033-1039 (and identically 1489-1495, 2224-2230): the root of
the bot's reply is the thread root when the target post is itself a reply,
else the target post itself. -/
def initial_root_ref (target : FeedPost) : StrongRef :=
  match target.reply with
  | some r => r.root
  | none => target.ref

/-- bot.py lines 992-1111, the pipeline prefix of process_mention up to the
point where thread-context assembly and generation begin (line 1113): fetch
the thread, run the depth-limit state machine, then the reason-specific
duplicate-reply and reply-target-ownership guards. -/
def process_mention (env : BskyEnv) (reason : Reason) (uri : String) : MentionOutcome :=
  match env.fetch_thread uri with
  | none => .noThread
  | some .notThreadViewPost => .noThread
  | some (.threadViewPost target par replies) =>
    if env.conversation_cap ≤ get_thread_length (.threadViewPost target par replies) then
      if parent_is_canned env target then .cannedSkipped
      else .cannedSent THREAD_DEPTH_LIMIT_MESSAGE (initial_root_ref target) target.ref
    else
      match reason with
      | .mention =>
        if replies.any (fun rp => rp.author_handle == env.bot_handle) then .dupSkip
        else .generate
      | .reply =>
        match target.reply with
        | none => .notReplyRecord
        | some r =>
          match env.fetch_post r.parent.uri with
          | none => .parentFetchFailed
          | some pp =>
            if pp.author_handle == env.bot_handle then
              if replies.any (fun rp => rp.author_handle == env.bot_handle) then .dupSkip
              else .generate
            else .userToUserSkip

/-- process_mention together with its dedup-cache side effect: bot.py lines
983-988 insert the event identity under the lock before the thread fetch; no
membership result is produced and the outcome never depends on the cache. -/
def process_mention_step (env : BskyEnv) (cache_max : Nat) (dedup : List String)
    (reason : Reason) (uri : String) : MentionOutcome × List String :=
  (process_mention env reason uri, mark_processed_uri cache_max dedup uri)

/-- bot.py lines 2156-2277 (process_jetstream_event) after URI assembly:
insert into the dedup cache (lines 2177-2180), fetch the thread, run the
depth-limit branch (lines 2199-2239, duplicating process_mention), run the
duplicate-reply guard for both reasons (lines 2241-2247), then delegate to
process_mention with reason mention when the text mentions the bot and reply
otherwise (lines 2266-2276). -/
def process_jetstream_event (env : BskyEnv) (cache_max : Nat) (dedup : List String)
    (post_text : List Char) (uri : String) : MentionOutcome × List String :=
  let dedup1 := mark_processed_uri cache_max dedup uri
  match env.fetch_thread uri with
  | none => (.noThread, dedup1)
  | some .notThreadViewPost => (.noThread, dedup1)
  | some (.threadViewPost target par replies) =>
    if env.conversation_cap ≤ get_thread_length (.threadViewPost target par replies) then
      if parent_is_canned env target then (.cannedSkipped, dedup1)
      else (.cannedSent THREAD_DEPTH_LIMIT_MESSAGE (initial_root_ref target) target.ref, dedup1)
    else if replies.any (fun rp => rp.author_handle == env.bot_handle) then (.dupSkip, dedup1)
    else
      process_mention_step env cache_max dedup1
        (if is_mention_of_bot env.bot_handle post_text then .mention else .reply) uri

/-- A reply post the pipeline issues through send_post. -/
structure ReplyPost where
  text : List Char
  root : StrongRef
  parent : StrongRef
deriving DecidableEq, Repr

/-- The send_post calls a pipeline outcome issues before generation would
start; a generate outcome continues into content generation, whose eventual
posts are abstracted by the parameter. -/
def outcome_posts (generated : List ReplyPost) : MentionOutcome → List ReplyPost
  | .cannedSent t root parent => [⟨t, root, parent⟩]
  | .generate => generated
  | _ => []

/-- Whether the outcome continues into content generation. -/
def generation_called : MentionOutcome → Bool
  | .generate => true
  | _ => false

/-! ## Reply-chain posting (bot.py lines 1488-1567)

The send_post results are an oracle list: entry i is the strong ref of the
post created by the i-th send, or none when that send raises (on which the
loop breaks, bot.py lines 1561-1567).  media_uploaded records whether
embed_to_post was built for segment 0 (media present and upload succeeded,
bot.py lines 1502-1537). -/

/-- MAX_REPLY_THREAD_DEPTH default (bot.py line 142). -/
def MAX_REPLY_THREAD_DEPTH : Nat := 10

/-- One successfully created reply segment. -/
structure PostedSegment where
  text : List Char
  root : StrongRef
  parent : StrongRef
  self_ref : StrongRef
  has_media : Bool
deriving DecidableEq, Repr

/-- bot.py lines 1501-1567: send each segment as a reply to the previous one,
carrying the root forward; the embed rides only on the first iteration; a
failed send stops the loop. -/
def send_reply_chain : List (List Char) → List (Option StrongRef) → StrongRef →
    StrongRef → Bool → List PostedSegment
  | [], _, _, _, _ => []
  | _ :: _, [], _, _, _ => []
  | t :: ts, o :: os, root, parent, embed =>
    match o with
    | some ref => ⟨t, root, parent, ref, embed⟩ :: send_reply_chain ts os root ref false
    | none => []

/-- bot.py lines 1488-1567: truncate the segments to MAX_REPLY_THREAD_DEPTH
(line 1501), compute the initial root and parent refs (lines 1489-1495), then
run the send loop. -/
def post_reply_thread (max_depth : Nat) (texts : List (List Char)) (target : FeedPost)
    (media_uploaded : Bool) (sends : List (Option StrongRef)) : List PostedSegment :=
  send_reply_chain (texts.take max_depth) sends (initial_root_ref target) target.ref
    media_uploaded

/-! ## Substring facts -/

theorem startsWith_length : ∀ (n h : List Char), startsWith n h = true → n.length ≤ h.length := by
  intro n
  induction n with
  | nil => intro h _; exact Nat.zero_le _
  | cons a as ih =>
    intro h hw
    cases h with
    | nil => exact absurd hw (by simp [startsWith])
    | cons b bs =>
      simp only [startsWith, Bool.and_eq_true] at hw
      exact Nat.succ_le_succ (ih bs hw.2)

theorem startsWith_eq_of_length : ∀ (n h : List Char), startsWith n h = true →
    n.length = h.length → n = h := by
  intro n
  induction n with
  | nil =>
    intro h _ hl
    cases h with
    | nil => rfl
    | cons b bs => simp at hl
  | cons a as ih =>
    intro h hw hl
    cases h with
    | nil => exact absurd hw (by simp [startsWith])
    | cons b bs =>
      simp only [startsWith, Bool.and_eq_true, beq_iff_eq] at hw
      simp only [List.length_cons, Nat.succ.injEq] at hl
      rw [hw.1, ih bs hw.2 hl]

theorem pyIn_length : ∀ (n h : List Char), pyIn n h = true → n.length ≤ h.length := by
  intro n h
  induction h with
  | nil =>
    intro hw
    simp only [pyIn, List.isEmpty_iff] at hw
    simp [hw]
  | cons b bs ih =>
    intro hw
    simp only [pyIn, Bool.or_eq_true] at hw
    rcases hw with hw | hw
    · exact startsWith_length _ _ hw
    · exact Nat.le_trans (ih hw) (Nat.le_succ _)

theorem pyIn_eq_of_length : ∀ (n h : List Char), pyIn n h = true →
    n.length = h.length → n = h := by
  intro n h
  induction h with
  | nil =>
    intro hw _
    simpa only [pyIn, List.isEmpty_iff] using hw
  | cons b bs ih =>
    intro hw hl
    simp only [pyIn, Bool.or_eq_true] at hw
    rcases hw with hw | hw
    · exact startsWith_eq_of_length _ _ hw hl
    · have hle := pyIn_length _ _ hw
      simp only [List.length_cons] at hl
      omega

theorem startsWith_self : ∀ (l : List Char), startsWith l l = true := by
  intro l
  induction l with
  | nil => rfl
  | cons a as ih => simp [startsWith, ih]

theorem pyIn_refl (l : List Char) : pyIn l l = true := by
  cases l with
  | nil => rfl
  | cons a as => simp [pyIn, startsWith_self]

theorem startsWith_map (f : Char → Char) : ∀ (n h : List Char),
    startsWith n h = true → startsWith (n.map f) (h.map f) = true := by
  intro n
  induction n with
  | nil => intro h _; rfl
  | cons a as ih =>
    intro h hw
    cases h with
    | nil => exact absurd hw (by simp [startsWith])
    | cons b bs =>
      simp only [startsWith, Bool.and_eq_true, beq_iff_eq] at hw
      simp [List.map, startsWith, hw.1, ih bs hw.2]

theorem pyIn_map (f : Char → Char) : ∀ (n h : List Char),
    pyIn n h = true → pyIn (n.map f) (h.map f) = true := by
  intro n h
  induction h with
  | nil =>
    intro hw
    simp only [pyIn, List.isEmpty_iff] at hw
    simp [hw, pyIn]
  | cons b bs ih =>
    intro hw
    simp only [pyIn, Bool.or_eq_true] at hw ⊢
    rcases hw with hw | hw
    · exact Or.inl (startsWith_map f _ _ hw)
    · exact Or.inr (ih hw)

theorem pyIn_ne_nil (n h : List Char) (hn : n.isEmpty = false) (hw : pyIn n h = true) :
    h.isEmpty = false := by
  cases h with
  | nil => simp only [pyIn] at hw; rw [hw] at hn; exact absurd hn (by simp)
  | cons b bs => rfl

theorem pyLower_isEmpty (l : List Char) : (pyLower l).isEmpty = l.isEmpty := by
  cases l <;> rfl

/-! ## Mention detection: case variants (claim C10) -/

theorem pyIn_ne_of_length (p v : List Char) (hp : p.length = v.length) (hne : p ≠ v) :
    pyIn ('@' :: p) ('@' :: v) = false := by
  cases hIn : pyIn ('@' :: p) ('@' :: v) with
  | false => rfl
  | true =>
    have heq := pyIn_eq_of_length _ _ hIn (by simp [hp])
    simp only [List.cons.injEq, true_and] at heq
    exact absurd heq hne

/-- C10: is_mention_of_bot accepts exactly the texts containing an at sign
followed by the handle as configured, fully lowercased, or fully uppercased;
a mention using any other case variant of the handle is not detected. -/
theorem C10_mention_case_variant_limited :
    (∀ (handle text : List Char),
      is_mention_of_bot handle text = true ↔
        (pyIn ('@' :: handle) text = true ∨ pyIn ('@' :: pyLower handle) text = true ∨
         pyIn ('@' :: pyUpper handle) text = true))
    ∧ (∀ (handle v : List Char), pyLower v = pyLower handle →
        v ≠ handle → v ≠ pyLower handle → v ≠ pyUpper handle →
        is_mention_of_bot handle ('@' :: v) = false) := by
  constructor
  · intro handle text
    unfold is_mention_of_bot
    cases text with
    | nil => simp [pyIn]
    | cons c cs => simp [or_assoc]
  · intro handle v hl hne hnl hnu
    have hlen : handle.length = v.length := by
      have := congrArg List.length hl
      simpa [pyLower] using this.symm
    unfold is_mention_of_bot
    rw [pyIn_ne_of_length handle v hlen (fun h => hne h.symm),
        pyIn_ne_of_length (pyLower handle) v (by simpa [pyLower] using hlen)
          (fun h => hnl h.symm),
        pyIn_ne_of_length (pyUpper handle) v (by simpa [pyUpper] using hlen)
          (fun h => hnu h.symm)]
    simp

/-- C10 witness: the handle bot.test is detected in its configured, lower and
upper forms only; the mixed variant Bot.test is not detected. -/
theorem C10_mention_case_variant_limited_witness :
    is_mention_of_bot (str "bot.test") ('@' :: str "Bot.test") = false :=
  C10_mention_case_variant_limited.2 (str "bot.test") (str "Bot.test")
    (by decide) (by decide) (by decide) (by decide)

/-! ## Relevance predicate (claim C7) -/

/-- C7: the relevance predicate accepts a raw feed event exactly when it is a
creation commit for the post collection, not authored by the bot, and the text
mentions the bot's handle or the post is a reply whose immediate-parent URI
contains the bot DID. -/
theorem C7_relevance_predicate (bot_did bot_handle : List Char) (e : JetstreamEvent)
    (hdid : bot_did ≠ []) :
    should_process_jetstream_event bot_did bot_handle e = true ↔
      (e.kind = some "commit" ∧ e.operation = some "create" ∧
       e.collection = some "app.bsky.feed.post" ∧ e.did ≠ some bot_did ∧
       (is_mention_of_bot bot_handle e.record_text = true ∨
        ∃ r, e.reply = some r ∧ pyIn bot_did r.parent_uri = true)) := by
  obtain ⟨k, op, col, d, txt, rep⟩ := e
  unfold should_process_jetstream_event
  by_cases hk : k = some "commit"
  · by_cases hop : op = some "create"
    · by_cases hcol : col = some "app.bsky.feed.post"
      · by_cases hd : d = some bot_did
        · simp [hk, hop, hcol, hd]
        · by_cases hm : is_mention_of_bot bot_handle txt = true
          · simp [hk, hop, hcol, hd, hm]
          · cases rep with
            | none => simp [hk, hop, hcol, hd, hm]
            | some r =>
              have hbd : bot_did.isEmpty = false := by
                cases bot_did with
                | nil => exact absurd rfl hdid
                | cons a as => rfl
              simp [hk, hop, hcol, hd, hm, hbd]
      · simp [hk, hop, hcol]
    · simp [hk, hop]
  · simp [hk]

/-- C7 witness: a creation commit replying to a bot post is accepted. -/
theorem C7_relevance_predicate_witness :
    should_process_jetstream_event (str "did:plc:bot123") (str "bot.test")
      ⟨some "commit", some "create", some "app.bsky.feed.post",
       some (str "did:plc:alice"), str "why though",
       some ⟨str "at://did:plc:bot123/app.bsky.feed.post/3k2", str "at://root"⟩⟩ = true :=
  (C7_relevance_predicate (str "did:plc:bot123") (str "bot.test") _ (by decide)).2
    ⟨rfl, rfl, rfl, by decide,
     Or.inr ⟨⟨str "at://did:plc:bot123/app.bsky.feed.post/3k2", str "at://root"⟩,
       rfl, by decide⟩⟩

/-! ## Failure classifier (claim C8) -/

/-- C8 (amended): an error message containing safety is a policy rejection; an
error message containing timeout with no policy keywords is a technical
failure provided it does not also combine a zero-results marker with a prompt
mentioning a person-like term (a zero-results marker alone, with a prompt
free of person-like terms, stays technical) and no prompt-block feedback is
present; a zero-results message with a prompt containing person is a policy
rejection even without explicit keywords. -/
theorem C8_classification :
    (∀ (msg : List Char) (rb : Bool) (p : Option (List Char)),
       pyIn (str "safety") msg = true → is_content_policy_failure msg rb p = true)
    ∧ (∀ (msg : List Char) (p : Option (List Char)),
       pyIn (str "timeout") msg = true →
       (∀ k ∈ policy_keywords, pyIn k (pyLower msg) = false) →
       (∀ q, p = some q →
         (pyIn (str "no videos") (pyLower msg) = true ∨
          pyIn (str "no images") (pyLower msg) = true) →
         ∀ t ∈ people_terms, pyIn t (pyLower q) = false) →
       is_content_policy_failure msg false p = false)
    ∧ (∀ (msg p : List Char) (rb : Bool),
       (pyIn (str "no videos") (pyLower msg) = true ∨
        pyIn (str "no images") (pyLower msg) = true) →
       pyIn (str "person") p = true →
       is_content_policy_failure msg rb (some p) = true) := by
  refine ⟨?_, ?_, ?_⟩
  · intro msg rb p hsafe
    have hne : msg.isEmpty = false := pyIn_ne_nil _ _ (by decide) hsafe
    have hlow : pyIn (str "safety") (pyLower msg) = true := by
      have := pyIn_map Char.toLower _ _ hsafe
      simpa [pyLower, show (str "safety").map Char.toLower = str "safety" by decide]
        using this
    have hany : policy_keywords.any (fun k => pyIn k (pyLower msg)) = true := by
      rw [List.any_eq_true]
      exact ⟨str "safety", by simp [policy_keywords], hlow⟩
    unfold is_content_policy_failure
    rw [hne]
    simp [hany]
  · intro msg p htimeout hkw hzero
    have hany : policy_keywords.any (fun k => pyIn k (pyLower msg)) = false := by
      rw [List.any_eq_false]
      intro k hk
      simp [hkw k hk]
    unfold is_content_policy_failure
    cases hne : msg.isEmpty with
    | true => simp
    | false =>
      simp only [hany, Bool.false_eq_true, if_false, if_neg]
      cases p with
      | none => simp
      | some q =>
        by_cases hm : (pyIn (str "no videos") (pyLower msg) = true ∨
            pyIn (str "no images") (pyLower msg) = true)
        · have hterms : people_terms.any (fun t => pyIn t (pyLower q)) = false := by
            rw [List.any_eq_false]
            intro t ht
            simp [hzero q rfl hm t ht]
          simp [hterms]
        · have h1 : pyIn (str "no videos") (pyLower msg) = false := by
            cases h : pyIn (str "no videos") (pyLower msg) with
            | false => rfl
            | true => exact absurd (Or.inl h) hm
          have h2 : pyIn (str "no images") (pyLower msg) = false := by
            cases h : pyIn (str "no images") (pyLower msg) with
            | false => rfl
            | true => exact absurd (Or.inr h) hm
          simp [h1, h2]
  · intro msg p rb hzero hperson
    have hne : msg.isEmpty = false := by
      rw [← pyLower_isEmpty]
      rcases hzero with hz | hz
      · exact pyIn_ne_nil _ _ (by decide) hz
      · exact pyIn_ne_nil _ _ (by decide) hz
    have hpne : p.isEmpty = false := pyIn_ne_nil _ _ (by decide) hperson
    have hplow : pyIn (str "person") (pyLower p) = true := by
      have := pyIn_map Char.toLower _ _ hperson
      simpa [pyLower, show (str "person").map Char.toLower = str "person" by decide]
        using this
    have hterms : people_terms.any (fun t => pyIn t (pyLower p)) = true := by
      rw [List.any_eq_true]
      exact ⟨str "person", by simp [people_terms], hplow⟩
    unfold is_content_policy_failure
    rw [hne]
    cases hany : policy_keywords.any (fun k => pyIn k (pyLower msg)) with
    | true => simp [hany]
    | false =>
      have hcond : (!p.isEmpty &&
          (pyIn (str "no videos") (pyLower msg) || pyIn (str "no images") (pyLower msg)) &&
          people_terms.any (fun t => pyIn t (pyLower p))) = true := by
        rcases hzero with hz | hz <;> simp [hpne, hz, hterms]
      simp [hcond]

/-- C8 witness: the clauses at concrete inputs: a safety message classifies as
policy, a plain timeout with no prompt classifies as technical, a timeout
reporting zero results for a prompt with no person-like term also classifies
as technical, and a zero-results message with a person prompt classifies as
policy. -/
theorem C8_classification_witness :
    is_content_policy_failure (str "the safety system rejected it") false none = true ∧
    is_content_policy_failure (str "timeout waiting for API") false none = false ∧
    is_content_policy_failure (str "timeout: no images generated") false
      (some (str "a mountain landscape")) = false ∧
    is_content_policy_failure (str "API returned no videos") false
      (some (str "a person dancing")) = true :=
  ⟨C8_classification.1 (str "the safety system rejected it") false none (by decide),
   C8_classification.2.1 (str "timeout waiting for API") none (by decide)
     (by decide) (fun _ hq => Option.noConfusion hq),
   C8_classification.2.1 (str "timeout: no images generated")
     (some (str "a mountain landscape")) (by decide) (by decide)
     (by intro q hq hm t ht; cases hq; fin_cases ht <;> decide),
   C8_classification.2.2 (str "API returned no videos") (str "a person dancing") false
     (Or.inl (by decide)) (by decide)⟩

/-- C8 counterexample: the claim classifies every timeout error without policy
keywords as a technical failure, but the code classifies this timeout message
as a policy rejection because it also reports zero results while the prompt
mentions a person. -/
theorem C8_timeout_counterexample :
    pyIn (str "timeout") (str "timeout: no videos were returned") = true ∧
    (∀ k ∈ policy_keywords,
      pyIn k (pyLower (str "timeout: no videos were returned")) = false) ∧
    is_content_policy_failure (str "timeout: no videos were returned") false
      (some (str "a person on a beach")) = true := by
  refine ⟨by decide, ?_, by decide⟩
  intro k hk
  fin_cases hk <;> decide

/-! ## Event queue overflow (claim C5) -/

/-- C5: on a full queue one more enqueue returns false, leaves the queue
unchanged and increments the drop counter by exactly 1 (the only possible
exception, queue.Full, is caught, and put_nowait never blocks: the embedded
function is total); on a non-full queue it appends the event and returns
true. -/
theorem C5_enqueue_nonblocking {α : Type} (capacity : Nat) (q : List α)
    (stats : JetstreamStats) (e : α) :
    (q.length = capacity →
      enqueue_jetstream_event capacity q stats e =
        (false, q, { stats with events_dropped := stats.events_dropped + 1 }))
    ∧ (q.length < capacity →
      enqueue_jetstream_event capacity q stats e =
        (true, q ++ [e], { stats with events_received := stats.events_received + 1 })) := by
  constructor
  · intro h
    unfold enqueue_jetstream_event
    rw [if_neg (by omega)]
  · intro h
    unfold enqueue_jetstream_event
    rw [if_pos h]

/-- C5 witness at capacity 2 with a full and a non-full queue. -/
theorem C5_enqueue_nonblocking_witness :
    enqueue_jetstream_event 2 [10, 11] ⟨5, 7⟩ 12 = (false, [10, 11], ⟨5, 8⟩) ∧
    enqueue_jetstream_event 2 [10] ⟨5, 7⟩ 12 = (true, [10, 12], ⟨6, 7⟩) :=
  ⟨(C5_enqueue_nonblocking 2 [10, 11] ⟨5, 7⟩ 12).1 rfl,
   (C5_enqueue_nonblocking 2 [10] ⟨5, 7⟩ 12).2 (by decide)⟩

/-! ## Dedup cache bound and FIFO eviction (claim C6) -/

/-- C6: after any insertion the cache never exceeds its configured maximum,
and an insertion of a fresh identity into a cache at capacity evicts exactly
the single oldest entry (the head of the insertion order). -/
theorem C6_dedup_capacity_fifo (cache_max : Nat) (s : List String) (uri : String) :
    (s.length ≤ cache_max → (mark_processed_uri cache_max s uri).length ≤ cache_max)
    ∧ (0 < cache_max → s.length = cache_max → uri ∉ s →
       mark_processed_uri cache_max s uri = s.drop 1 ++ [uri]) := by
  constructor
  · intro h
    unfold mark_processed_uri
    by_cases hm : uri ∈ s
    · simp only [if_pos hm]
      by_cases hl : cache_max < s.length
      · rw [if_pos hl]
        simp only [List.length_drop]
        omega
      · rw [if_neg hl]
        exact h
    · simp only [if_neg hm]
      by_cases hl : cache_max < (s ++ [uri]).length
      · rw [if_pos hl]
        simp only [List.length_drop, List.length_append, List.length_singleton]
        omega
      · rw [if_neg hl]
        omega
  · intro hpos hlen hm
    unfold mark_processed_uri
    rw [if_neg hm, if_pos (by simp only [List.length_append, List.length_singleton]; omega)]
    exact List.drop_append_of_le_length (by omega)

/-- C6 witness at capacity 2: the third insert evicts the oldest entry and the
size stays at the maximum. -/
theorem C6_dedup_capacity_fifo_witness :
    (mark_processed_uri 2 ["a", "b"] "c").length ≤ 2 ∧
    mark_processed_uri 2 ["a", "b"] "c" = ["b", "c"] :=
  ⟨(C6_dedup_capacity_fifo 2 ["a", "b"] "c").1 (by decide),
   (C6_dedup_capacity_fifo 2 ["a", "b"] "c").2 (by decide) (by decide) (by decide)⟩

/-! ## Dedup check semantics (claim C1) -/

theorem mem_mark_processed_uri (cache_max : Nat) (s : List String) (uri : String)
    (hpos : 0 < cache_max) (hm : uri ∉ s) : uri ∈ mark_processed_uri cache_max s uri := by
  unfold mark_processed_uri
  simp only [if_neg hm]
  by_cases hl : cache_max < (s ++ [uri]).length
  · rw [if_pos hl]
    cases s with
    | nil => simp at hl; omega
    | cons a as =>
      rw [List.cons_append, List.drop_one, List.tail_cons]
      simp
  · rw [if_neg hl]
    simp

/-- C1 (amended): the DM-command checker's membership check followed by its
locked insert, run twice in sequence for a fresh identity, reports
already_seen false the first time and true the second time. -/
theorem C1_dm_dedup_false_then_true (cache_max : Nat) (s : List String) (key : String)
    (hpos : 0 < cache_max) (hfresh : key ∉ s) :
    (dm_mark_and_check cache_max s key).1 = false ∧
    (dm_mark_and_check cache_max (dm_mark_and_check cache_max s key).2 key).1 = true := by
  have h2 : dm_mark_and_check cache_max s key =
      (false, mark_processed_uri cache_max s key) := by
    unfold dm_mark_and_check
    rw [if_neg hfresh]
  refine ⟨by rw [h2], ?_⟩
  rw [h2]
  unfold dm_mark_and_check
  rw [if_pos (mem_mark_processed_uri cache_max s key hpos hfresh)]

/-- C1 witness: the two sequential DM-checker calls at a concrete fresh key. -/
theorem C1_dm_dedup_false_then_true_witness :
    (dm_mark_and_check 2 [] "dm:msg1").1 = false ∧
    (dm_mark_and_check 2 (dm_mark_and_check 2 [] "dm:msg1").2 "dm:msg1").1 = true :=
  C1_dm_dedup_false_then_true 2 [] "dm:msg1" (by decide) (by simp)

/-- Concrete single-post thread used to exercise the stream-worker pipeline. -/
def demo_ref : StrongRef := ⟨"at://did:plc:alice/app.bsky.feed.post/3k1", "cid-a1"⟩

/-- The post behind demo_ref: a fresh mention of the bot with no replies. -/
def demo_post : FeedPost := ⟨demo_ref, str "alice.test", str "hello @bot.test tell me things", none⟩

/-- Environment whose thread oracle serves demo_ref and nothing else. -/
def demo_env : BskyEnv :=
  ⟨str "bot.test", 50,
   fun u => if u = demo_ref.uri then some (.threadViewPost demo_post none []) else none,
   fun _ => none⟩

/-- C1 counterexample: the stream/mention dedup step (insert-only, bot.py
lines 983-988) reports no prior membership, so processing the same identity a
second time, with the identity already in the cache, still proceeds all the
way to content generation instead of returning already_seen true. -/
theorem C1_stream_dedup_counterexample :
    demo_ref.uri ∈ (process_mention_step demo_env 500 [] .mention demo_ref.uri).2 ∧
    (process_mention_step demo_env 500 [] .mention demo_ref.uri).1 = .generate ∧
    (process_mention_step demo_env 500
        (process_mention_step demo_env 500 [] .mention demo_ref.uri).2
        .mention demo_ref.uri).1 = .generate := by
  refine ⟨?_, ?_, ?_⟩ <;> decide

/-! ## Thread-depth state machine (claim C3) -/

/-- C3: an event whose thread is at or over the conversation cap and whose
parent is not already the canned message gets exactly one canned depth-limit
reply and no generation; a subsequent event in the same thread whose immediate
parent is that bot-authored canned message gets zero replies and no
generation.  Both the process_mention pipeline and the process_jetstream_event
wrapper are covered. -/
theorem C3_thread_depth_state_machine
    (env env2 : BskyEnv) (uri uri2 : String) (reason reason2 : Reason)
    (cache_max : Nat) (dedup dedup2 : List String) (post_text post_text2 : List Char)
    (gen gen2 : List ReplyPost)
    (target : FeedPost) (par : Option ThreadView) (replies : List FeedPost)
    (henv : env.fetch_thread uri = some (.threadViewPost target par replies))
    (hlen : env.conversation_cap ≤ get_thread_length (.threadViewPost target par replies))
    (hnc : parent_is_canned env target = false)
    (target2 cannedPost : FeedPost) (creps replies2 : List FeedPost) (r2 : ReplyRecord)
    (henv2 : env2.fetch_thread uri2 = some (.threadViewPost target2
        (some (.threadViewPost cannedPost (some (.threadViewPost target par replies)) creps))
        replies2))
    (hcap2 : env2.conversation_cap = env.conversation_cap)
    (hreply2 : target2.reply = some r2)
    (hfp2 : env2.fetch_post r2.parent.uri = some cannedPost)
    (hauth : cannedPost.author_handle = env2.bot_handle)
    (htext : cannedPost.text = THREAD_DEPTH_LIMIT_MESSAGE) :
    process_mention env reason uri =
      .cannedSent THREAD_DEPTH_LIMIT_MESSAGE (initial_root_ref target) target.ref ∧
    outcome_posts gen (process_mention env reason uri) =
      [⟨THREAD_DEPTH_LIMIT_MESSAGE, initial_root_ref target, target.ref⟩] ∧
    generation_called (process_mention env reason uri) = false ∧
    (process_jetstream_event env cache_max dedup post_text uri).1 =
      .cannedSent THREAD_DEPTH_LIMIT_MESSAGE (initial_root_ref target) target.ref ∧
    process_mention env2 reason2 uri2 = .cannedSkipped ∧
    outcome_posts gen2 (process_mention env2 reason2 uri2) = [] ∧
    generation_called (process_mention env2 reason2 uri2) = false ∧
    (process_jetstream_event env2 cache_max dedup2 post_text2 uri2).1 = .cannedSkipped := by
  have hnc' : ¬ (parent_is_canned env target = true) := by simp [hnc]
  have hcore : process_mention env reason uri =
      .cannedSent THREAD_DEPTH_LIMIT_MESSAGE (initial_root_ref target) target.ref := by
    simp only [process_mention, henv, if_pos hlen, if_neg hnc']
  have hjet : (process_jetstream_event env cache_max dedup post_text uri).1 =
      .cannedSent THREAD_DEPTH_LIMIT_MESSAGE (initial_root_ref target) target.ref := by
    simp only [process_jetstream_event, henv, if_pos hlen, if_neg hnc']
  have hlen2 : env2.conversation_cap ≤ get_thread_length (.threadViewPost target2
      (some (.threadViewPost cannedPost (some (.threadViewPost target par replies)) creps))
      replies2) := by
    have : get_thread_length (.threadViewPost target2
        (some (.threadViewPost cannedPost (some (.threadViewPost target par replies)) creps))
        replies2) = 1 + (1 + get_thread_length (.threadViewPost target par replies)) := rfl
    rw [this, hcap2]
    omega
  have hpc2 : parent_is_canned env2 target2 = true := by
    unfold parent_is_canned
    rw [hreply2]
    simp only [hfp2, hauth, htext]
    simp [pyIn_refl]
  have hpc2' : parent_is_canned env2 target2 = true := hpc2
  have hcore2 : process_mention env2 reason2 uri2 = .cannedSkipped := by
    simp only [process_mention, henv2, if_pos hlen2, hpc2', if_true]
  have hjet2 : (process_jetstream_event env2 cache_max dedup2 post_text2 uri2).1 =
      .cannedSkipped := by
    simp only [process_jetstream_event, henv2, if_pos hlen2, hpc2', if_true]
  exact ⟨hcore, by rw [hcore]; rfl, by rw [hcore]; rfl, hjet,
         hcore2, by rw [hcore2]; rfl, by rw [hcore2]; rfl, hjet2⟩

/-- Concrete two-post thread at a conversation cap of 2. -/
def c3_root_ref : StrongRef := ⟨"at://did:plc:alice/app.bsky.feed.post/root", "cid-root"⟩

/-- The root post of the concrete thread. -/
def c3_root_post : FeedPost := ⟨c3_root_ref, str "alice.test", str "first post", none⟩

/-- Ref of the triggering post of the first event. -/
def c3_target_ref : StrongRef := ⟨"at://did:plc:bob/app.bsky.feed.post/t1", "cid-t1"⟩

/-- The triggering post of the first event, a reply to the root. -/
def c3_target_post : FeedPost :=
  ⟨c3_target_ref, str "bob.test", str "@bot.test again", some ⟨c3_root_ref, c3_root_ref⟩⟩

/-- Thread view of the first event: two resolvable posts. -/
def c3_thread1 : ThreadView :=
  .threadViewPost c3_target_post (some (.threadViewPost c3_root_post none [])) []

/-- Environment of the first event; the conversation cap is configured to 2
and the parent oracle resolves nothing, so the parent is not canned. -/
def c3_env1 : BskyEnv :=
  ⟨str "bot.test", 2,
   fun u => if u = c3_target_ref.uri then some c3_thread1 else none,
   fun _ => none⟩

/-- Ref of the canned depth-limit reply the bot posts for the first event. -/
def c3_canned_ref : StrongRef := ⟨"at://did:plc:bot/app.bsky.feed.post/c1", "cid-c1"⟩

/-- The canned depth-limit reply as a post authored by the bot. -/
def c3_canned_post : FeedPost :=
  ⟨c3_canned_ref, str "bot.test", THREAD_DEPTH_LIMIT_MESSAGE, some ⟨c3_root_ref, c3_target_ref⟩⟩

/-- Ref of the second event's triggering post, a user reply to the canned message. -/
def c3_target2_ref : StrongRef := ⟨"at://did:plc:bob/app.bsky.feed.post/t2", "cid-t2"⟩

/-- The second event's triggering post. -/
def c3_target2_post : FeedPost :=
  ⟨c3_target2_ref, str "bob.test", str "but why", some ⟨c3_root_ref, c3_canned_ref⟩⟩

/-- Thread view of the second event: the previous thread extended by the
canned message and the user's reply to it. -/
def c3_thread2 : ThreadView :=
  .threadViewPost c3_target2_post (some (.threadViewPost c3_canned_post (some c3_thread1) [])) []

/-- Environment of the second event: same cap, parent oracle resolves the
canned post. -/
def c3_env2 : BskyEnv :=
  ⟨str "bot.test", 2,
   fun u => if u = c3_target2_ref.uri then some c3_thread2 else none,
   fun u => if u = c3_canned_ref.uri then some c3_canned_post else none⟩

/-- C3 witness: the concrete over-cap thread gets exactly the canned reply and
the follow-up event whose parent is the canned message gets nothing. -/
theorem C3_thread_depth_state_machine_witness :
    process_mention c3_env1 .reply c3_target_ref.uri =
      .cannedSent THREAD_DEPTH_LIMIT_MESSAGE c3_root_ref c3_target_ref ∧
    process_mention c3_env2 .reply c3_target2_ref.uri = .cannedSkipped :=
  have h := C3_thread_depth_state_machine c3_env1 c3_env2 c3_target_ref.uri
    c3_target2_ref.uri .reply .reply 500 [] [] (str "@bot.test again") (str "but why")
    [] [] c3_target_post (some (.threadViewPost c3_root_post none [])) []
    (by simp [c3_env1, c3_thread1]) (by decide) (by decide)
    c3_target2_post c3_canned_post [] [] ⟨c3_root_ref, c3_canned_ref⟩
    (by simp [c3_env2, c3_thread2, c3_thread1]) rfl rfl
    (by simp [c3_env2, c3_target2_post, c3_canned_ref]) rfl rfl
  ⟨h.1, h.2.2.2.2.1⟩

/-! ## Duplicate-reply guard (claim C4) -/

/-- C4 (amended): for every event whose thread is below the conversation cap
and whose triggering post already has a direct reply authored by the bot,
processing aborts before any content generation: zero replies are posted and
no generation call is made, on both the process_mention pipeline (either
reason) and the process_jetstream_event wrapper.  (At or over the cap the
depth-limit branch runs first and can still post the canned reply.) -/
theorem C4_duplicate_reply_guard
    (env : BskyEnv) (uri : String) (reason : Reason) (cache_max : Nat)
    (dedup : List String) (post_text : List Char) (gen : List ReplyPost)
    (target : FeedPost) (par : Option ThreadView) (replies : List FeedPost)
    (henv : env.fetch_thread uri = some (.threadViewPost target par replies))
    (hlen : get_thread_length (.threadViewPost target par replies) < env.conversation_cap)
    (hdup : replies.any (fun rp => rp.author_handle == env.bot_handle) = true) :
    outcome_posts gen (process_mention env reason uri) = [] ∧
    generation_called (process_mention env reason uri) = false ∧
    (process_jetstream_event env cache_max dedup post_text uri).1 = .dupSkip ∧
    outcome_posts gen (process_jetstream_event env cache_max dedup post_text uri).1 = [] ∧
    generation_called (process_jetstream_event env cache_max dedup post_text uri).1 = false := by
  have hnle : ¬ (env.conversation_cap ≤
      get_thread_length (.threadViewPost target par replies)) := by omega
  have hjet : (process_jetstream_event env cache_max dedup post_text uri).1 = .dupSkip := by
    simp only [process_jetstream_event, henv, if_neg hnle, hdup, if_true]
  have habort : outcome_posts gen (process_mention env reason uri) = [] ∧
      generation_called (process_mention env reason uri) = false := by
    cases reason with
    | mention =>
      have : process_mention env .mention uri = .dupSkip := by
        simp only [process_mention, henv, if_neg hnle, hdup, if_true]
      rw [this]
      exact ⟨rfl, rfl⟩
    | reply =>
      cases hrep : target.reply with
      | none =>
        have : process_mention env .reply uri = .notReplyRecord := by
          simp only [process_mention, henv, if_neg hnle, hrep]
        rw [this]
        exact ⟨rfl, rfl⟩
      | some r =>
        cases hfp : env.fetch_post r.parent.uri with
        | none =>
          have : process_mention env .reply uri = .parentFetchFailed := by
            simp only [process_mention, henv, if_neg hnle, hrep, hfp]
          rw [this]
          exact ⟨rfl, rfl⟩
        | some pp =>
          by_cases hb : pp.author_handle == env.bot_handle
          · have : process_mention env .reply uri = .dupSkip := by
              simp only [process_mention, henv, if_neg hnle, hrep, hfp, hb, if_true,
                hdup]
            rw [this]
            exact ⟨rfl, rfl⟩
          · have : process_mention env .reply uri = .userToUserSkip := by
              simp only [process_mention, henv, if_neg hnle, hrep, hfp, if_neg hb]
            rw [this]
            exact ⟨rfl, rfl⟩
  exact ⟨habort.1, habort.2, hjet, by rw [hjet]; rfl, by rw [hjet]; rfl⟩

/-- Single-post thread whose triggering post already carries a bot reply. -/
def c4_target_ref : StrongRef := ⟨"at://did:plc:carol/app.bsky.feed.post/t4", "cid-t4"⟩

/-- The triggering post for the C4 scenarios. -/
def c4_target_post : FeedPost := ⟨c4_target_ref, str "carol.test", str "hey @bot.test", none⟩

/-- The pre-existing direct reply by the bot under the triggering post. -/
def c4_bot_reply : FeedPost :=
  ⟨⟨"at://did:plc:bot/app.bsky.feed.post/r4", "cid-r4"⟩, str "bot.test",
   str "already answered", some ⟨c4_target_ref, c4_target_ref⟩⟩

/-- Below-cap environment for the C4 witness (cap 50, thread length 1). -/
def c4_env : BskyEnv :=
  ⟨str "bot.test", 50,
   fun u => if u = c4_target_ref.uri
            then some (.threadViewPost c4_target_post none [c4_bot_reply]) else none,
   fun _ => none⟩

/-- C4 witness: below the cap, the existing bot reply aborts processing with
zero posts and no generation on both pipelines. -/
theorem C4_duplicate_reply_guard_witness :
    outcome_posts [] (process_mention c4_env .mention c4_target_ref.uri) = [] ∧
    (process_jetstream_event c4_env 500 [] (str "hey @bot.test") c4_target_ref.uri).1 =
      .dupSkip :=
  have h := C4_duplicate_reply_guard c4_env c4_target_ref.uri .mention 500 []
    (str "hey @bot.test") [] c4_target_post none [c4_bot_reply]
    (by simp [c4_env]) (by decide) (by decide)
  ⟨h.1, h.2.2.1⟩

/-- Over-cap environment for the C4 counterexample: a two-post thread at cap 2
whose triggering post already has a direct bot reply. -/
def c4x_env : BskyEnv :=
  ⟨str "bot.test", 2,
   fun u => if u = c3_target_ref.uri
            then some (.threadViewPost c3_target_post
              (some (.threadViewPost c3_root_post none [])) [c4_bot_reply]) else none,
   fun _ => none⟩

set_option maxRecDepth 8192 in
/-- C4 counterexample: the triggering post already has a direct bot reply, yet
the pipeline still posts one (canned) reply, because the depth-limit branch
runs before the duplicate-reply guard; the claim promises zero replies for
every such event. -/
theorem C4_duplicate_reply_guard_counterexample :
    [c4_bot_reply].any (fun rp => rp.author_handle == c4x_env.bot_handle) = true ∧
    outcome_posts [] (process_mention c4x_env .mention c3_target_ref.uri) =
      [⟨THREAD_DEPTH_LIMIT_MESSAGE, c3_root_ref, c3_target_ref⟩] := by
  constructor
  · decide
  · decide

/-! ## Reply-chain posting (claim C9) -/

theorem send_reply_chain_spec : ∀ (texts : List (List Char)) (sends : List (Option StrongRef))
    (root parent : StrongRef) (embed : Bool),
    (send_reply_chain texts sends root parent embed).length =
      min texts.length (sends.takeWhile Option.isSome).length
    ∧ (∀ p ∈ send_reply_chain texts sends root parent embed, p.root = root)
    ∧ (∀ p, (send_reply_chain texts sends root parent embed).head? = some p →
        p.parent = parent)
    ∧ (∀ (i : Nat) (p q : PostedSegment),
        (send_reply_chain texts sends root parent embed)[i]? = some p →
        (send_reply_chain texts sends root parent embed)[i + 1]? = some q →
        q.parent = p.self_ref)
    ∧ (∀ (i : Nat) (p : PostedSegment),
        (send_reply_chain texts sends root parent embed)[i]? = some p →
        0 < i → p.has_media = false)
    ∧ (∀ (i : Nat) (p : PostedSegment),
        (send_reply_chain texts sends root parent embed)[i]? = some p →
        texts[i]? = some p.text)
    ∧ (embed = false → ∀ p ∈ send_reply_chain texts sends root parent embed,
        p.has_media = false) := by
  intro texts
  induction texts with
  | nil =>
    intro sends root parent embed
    simp [send_reply_chain]
  | cons t ts ih =>
    intro sends root parent embed
    cases sends with
    | nil => simp [send_reply_chain]
    | cons o os =>
      cases o with
      | none => simp [send_reply_chain, List.takeWhile]
      | some ref =>
        have IH := ih os root ref false
        obtain ⟨ihlen, ihroot, ihhead, ihchain, ihmedia, ihtext, ihall⟩ := IH
        have hchain_eq : send_reply_chain (t :: ts) (some ref :: os) root parent embed =
            ⟨t, root, parent, ref, embed⟩ :: send_reply_chain ts os root ref false := rfl
        rw [hchain_eq]
        refine ⟨?_, ?_, ?_, ?_, ?_, ?_, ?_⟩
        · simp only [List.length_cons, List.takeWhile, Option.isSome_some, ihlen]
          omega
        · intro p hp
          rcases List.mem_cons.mp hp with h | h
          · rw [h]
          · exact ihroot p h
        · intro p hp
          simp only [List.head?_cons, Option.some.injEq] at hp
          rw [← hp]
        · intro i p q hp hq
          cases i with
          | zero =>
            simp only [List.getElem?_cons_zero, Option.some.injEq] at hp
            simp only [List.getElem?_cons_succ] at hq
            have := ihhead q (by
              rw [← List.head?_eq_getElem?] at hq
              exact hq)
            rw [this, ← hp]
          | succ j =>
            simp only [List.getElem?_cons_succ] at hp hq
            exact ihchain j p q hp hq
        · intro i p hp hi
          cases i with
          | zero => omega
          | succ j =>
            simp only [List.getElem?_cons_succ] at hp
            have hpm : p ∈ send_reply_chain ts os root ref false :=
              List.getElem?_mem hp
            exact ihall rfl p hpm
        · intro i p hp
          cases i with
          | zero =>
            simp only [List.getElem?_cons_zero, Option.some.injEq] at hp
            simp [← hp]
          | succ j =>
            simp only [List.getElem?_cons_succ] at hp ⊢
            exact ihtext j p hp
        · intro hembed p hp
          rcases List.mem_cons.mp hp with h | h
          · rw [h, hembed]
          · exact ihall rfl p h

/-- C9: the reply plan is posted as a chain: at most MAX_REPLY_THREAD_DEPTH
segments are sent (extras silently dropped) and posting stops at the first
failed send; segment 0 replies to the triggering post with the root set by
initial_root_ref (the thread root when the trigger was itself a reply, else
the trigger); every later segment replies to the ref returned for the
previous segment with the root unchanged; only segment 0 can carry the media
attachment; posted texts follow the plan in order. -/
theorem C9_reply_chain_posting (max_depth : Nat) (texts : List (List Char))
    (target : FeedPost) (media_uploaded : Bool) (sends : List (Option StrongRef)) :
    (post_reply_thread max_depth texts target media_uploaded sends).length =
      min (texts.take max_depth).length (sends.takeWhile Option.isSome).length
    ∧ (post_reply_thread max_depth texts target media_uploaded sends).length ≤ max_depth
    ∧ (∀ p ∈ post_reply_thread max_depth texts target media_uploaded sends,
        p.root = initial_root_ref target)
    ∧ (∀ p : PostedSegment,
        (post_reply_thread max_depth texts target media_uploaded sends).head? = some p →
        p.parent = target.ref)
    ∧ (∀ (i : Nat) (p q : PostedSegment),
        (post_reply_thread max_depth texts target media_uploaded sends)[i]? = some p →
        (post_reply_thread max_depth texts target media_uploaded sends)[i + 1]? = some q →
        q.parent = p.self_ref)
    ∧ (∀ (i : Nat) (p : PostedSegment),
        (post_reply_thread max_depth texts target media_uploaded sends)[i]? = some p →
        0 < i → p.has_media = false)
    ∧ (∀ (i : Nat) (p : PostedSegment),
        (post_reply_thread max_depth texts target media_uploaded sends)[i]? = some p →
        (texts.take max_depth)[i]? = some p.text) := by
  have h := send_reply_chain_spec (texts.take max_depth) sends (initial_root_ref target)
    target.ref media_uploaded
  obtain ⟨hlen, hroot, hhead, hchain, hmedia, htext, _⟩ := h
  refine ⟨hlen, ?_, hroot, hhead, hchain, hmedia, htext⟩
  unfold post_reply_thread
  rw [hlen]
  have := List.length_take_le max_depth texts
  omega

/-- Refs returned by the three successful sends of the C9 witness. -/
def c9_sent_refs : List (Option StrongRef) :=
  [some ⟨"at://did:plc:bot/app.bsky.feed.post/s0", "cid-s0"⟩,
   some ⟨"at://did:plc:bot/app.bsky.feed.post/s1", "cid-s1"⟩,
   none]

/-- C9 witness: a four-segment plan truncated at depth 10 with a failure at
the third send posts exactly two segments, chained on the returned refs, with
media only on segment 0. -/
theorem C9_reply_chain_posting_witness :
    (post_reply_thread 10 [str "one", str "two", str "three", str "four"]
      c4_target_post true c9_sent_refs).length = 2 ∧
    (∀ p ∈ post_reply_thread 10 [str "one", str "two", str "three", str "four"]
      c4_target_post true c9_sent_refs, p.root = initial_root_ref c4_target_post) ∧
    (∀ (i : Nat) (p : PostedSegment),
      (post_reply_thread 10 [str "one", str "two", str "three", str "four"]
        c4_target_post true c9_sent_refs)[i]? = some p → 0 < i → p.has_media = false) :=
  have h := C9_reply_chain_posting 10 [str "one", str "two", str "three", str "four"]
    c4_target_post true c9_sent_refs
  ⟨by rw [h.1]; decide, h.2.2.1, h.2.2.2.2.2.1⟩

/-! ## Text splitting (bot.py lines 610-659)

Python str.split() with no separator: the whitespace-separated words of a
string, in order, with no empty words. -/

theorem dropWhile_length_le (p : Char → Bool) (l : List Char) :
    (l.dropWhile p).length ≤ l.length :=
  (List.dropWhile_sublist (p := p) (l := l)).length_le

def pyWords : List Char → List (List Char)
  | [] => []
  | c :: cs =>
    if pySpace c then pyWords cs
    else (c :: cs.takeWhile (fun d => !pySpace d)) :: pyWords (cs.dropWhile (fun d => !pySpace d))
termination_by l => l.length
decreasing_by
  · simp
  · have := dropWhile_length_le (fun d => !pySpace d) cs
    simp only [List.length_cons]
    omega

/-- Python str.strip(): drop leading and trailing whitespace. -/
def pyStrip (l : List Char) : List Char :=
  ((l.dropWhile pySpace).reverse.dropWhile pySpace).reverse

/-- The lookbehind class of the sentence-splitting regex (bot.py line 620). -/
def sentence_end (c : Char) : Bool := c == '.' || c == '!' || c == '?'

/-- The regex split of bot.py line 620: a maximal whitespace run immediately
preceded by a sentence-ending character is a delimiter; the accumulator holds
the current piece reversed, so its head is the character just before the
scan position. -/
def split_sentences_aux : List Char → List Char → List (List Char)
  | [], acc => [acc.reverse]
  | c :: rest, acc =>
    if pySpace c && (match acc with | p :: _ => sentence_end p | [] => false) then
      acc.reverse :: split_sentences_aux (rest.dropWhile pySpace) []
    else
      split_sentences_aux rest (c :: acc)
termination_by l _ => l.length
decreasing_by
  · have := dropWhile_length_le pySpace rest
    simp only [List.length_cons]
    omega
  · simp

/-- re.split of the sentence pattern over the whole text. -/
def split_sentences (text : List Char) : List (List Char) := split_sentences_aux text []

/-- bot.py lines 637-646: the word-level fallback loop for one over-limit
sentence; state is (posts, word_post). -/
def word_accumulate (limit : Nat) : List (List Char) → List (List Char) → List Char →
    List (List Char) × List Char
  | [], posts, word_post => (posts, word_post)
  | w :: ws, posts, word_post =>
    if limit < word_post.length + w.length + 1 then
      word_accumulate limit ws (posts ++ [pyStrip word_post]) w
    else
      word_accumulate limit ws posts (word_post ++ ' ' :: w)

/-- bot.py lines 623-653: the sentence loop; state is (posts, current_post). -/
def sentence_accumulate (limit : Nat) : List (List Char) → List (List Char) → List Char →
    List (List Char) × List Char
  | [], posts, current => (posts, current)
  | s0 :: ss, posts, current =>
    let s := pyStrip s0
    if s.isEmpty then sentence_accumulate limit ss posts current
    else if limit < current.length + s.length + 1 then
      let posts1 := if current.isEmpty then posts else posts ++ [pyStrip current]
      if limit < s.length then
        let wp := word_accumulate limit (pyWords s) posts1 []
        let posts3 := if wp.2.isEmpty then wp.1 else wp.1 ++ [pyStrip wp.2]
        sentence_accumulate limit ss posts3 []
      else
        sentence_accumulate limit ss posts1 s
    else
      sentence_accumulate limit ss posts (if current.isEmpty then s else current ++ ' ' :: s)

/-- bot.py lines 610-659 (split_text_for_bluesky): empty text yields no
posts; otherwise split into sentences, run the sentence loop, flush the last
current_post, and drop empty posts. -/
def split_text_for_bluesky (text : List Char) (limit : Nat) : List (List Char) :=
  if text.isEmpty then []
  else
    let r := sentence_accumulate limit (split_sentences text) [] []
    let posts := if r.2.isEmpty then r.1 else r.1 ++ [pyStrip r.2]
    posts.filter (fun p => !p.isEmpty)

/-! ## Facts about words, strip and the sentence split -/

theorem takeWhile_of_all {α : Type} (q : α → Bool) :
    ∀ (l : List α), l.all q = true → l.takeWhile q = l := by
  intro l
  induction l with
  | nil => intro _; rfl
  | cons a as ih =>
    intro h
    simp only [List.all_cons, Bool.and_eq_true] at h
    simp [List.takeWhile_cons, h.1, ih h.2]

theorem dropWhile_of_all {α : Type} (q : α → Bool) :
    ∀ (l : List α), l.all q = true → l.dropWhile q = [] := by
  intro l
  induction l with
  | nil => intro _; rfl
  | cons a as ih =>
    intro h
    simp only [List.all_cons, Bool.and_eq_true] at h
    simp [List.dropWhile_cons, h.1, ih h.2]

theorem takeWhile_append_of_all {α : Type} (q : α → Bool) :
    ∀ (l m : List α), l.all q = true → (l ++ m).takeWhile q = l ++ m.takeWhile q := by
  intro l m
  induction l with
  | nil => intro _; rfl
  | cons a as ih =>
    intro h
    simp only [List.all_cons, Bool.and_eq_true] at h
    simp [List.takeWhile_cons, h.1, ih h.2]

theorem dropWhile_append_of_all {α : Type} (q : α → Bool) :
    ∀ (l m : List α), l.all q = true → (l ++ m).dropWhile q = m.dropWhile q := by
  intro l m
  induction l with
  | nil => intro _; rfl
  | cons a as ih =>
    intro h
    simp only [List.all_cons, Bool.and_eq_true] at h
    simp [List.dropWhile_cons, h.1, ih h.2]

theorem takeWhile_append_of_not_all {α : Type} (q : α → Bool) :
    ∀ (l m : List α), l.all q = false → (l ++ m).takeWhile q = l.takeWhile q := by
  intro l m
  induction l with
  | nil => intro h; simp at h
  | cons a as ih =>
    intro h
    simp only [List.all_cons, Bool.and_eq_false_iff] at h
    rcases h with h | h
    · simp [List.takeWhile_cons, h]
    · by_cases ha : q a
      · simp [List.takeWhile_cons, ha, ih h]
      · simp [List.takeWhile_cons, ha]

theorem dropWhile_append_of_not_all {α : Type} (q : α → Bool) :
    ∀ (l m : List α), l.all q = false → (l ++ m).dropWhile q = l.dropWhile q ++ m := by
  intro l m
  induction l with
  | nil => intro h; simp at h
  | cons a as ih =>
    intro h
    simp only [List.all_cons, Bool.and_eq_false_iff] at h
    rcases h with h | h
    · simp [List.dropWhile_cons, h]
    · by_cases ha : q a
      · simp [List.dropWhile_cons, ha, ih h]
      · simp [List.dropWhile_cons, ha]

theorem pyWords_nil : pyWords [] = [] := by
  simp [pyWords]

theorem pyWords_cons_space {c : Char} {cs : List Char} (hc : pySpace c = true) :
    pyWords (c :: cs) = pyWords cs := by
  simp [pyWords, hc]

theorem pyWords_cons_nonspace {c : Char} {cs : List Char} (hc : pySpace c = false) :
    pyWords (c :: cs) =
      (c :: cs.takeWhile (fun d => !pySpace d)) ::
        pyWords (cs.dropWhile (fun d => !pySpace d)) := by
  simp [pyWords, hc]

theorem pyWords_mem_nonspace : ∀ (l : List Char), ∀ w ∈ pyWords l,
    w ≠ [] ∧ ∀ c ∈ w, pySpace c = false := by
  intro l
  induction l using pyWords.induct with
  | case1 =>
    intro w hw
    simp [pyWords] at hw
  | case2 c cs hc ih =>
    intro w hw
    rw [pyWords_cons_space hc] at hw
    exact ih w hw
  | case3 c cs hc ih =>
    intro w hw
    have hc' : pySpace c = false := by simpa using hc
    rw [pyWords_cons_nonspace hc'] at hw
    rcases List.mem_cons.mp hw with h | h
    · subst h
      refine ⟨by simp, ?_⟩
      intro d hd
      rcases List.mem_cons.mp hd with rfl | hd
      · exact hc'
      · simpa using List.mem_takeWhile_imp hd
    · exact ih w h

theorem pyWords_append_space (c : Char) (hc : pySpace c = true) :
    ∀ (a b : List Char), pyWords (a ++ c :: b) = pyWords a ++ pyWords b := by
  intro a
  induction a using pyWords.induct with
  | case1 =>
    intro b
    rw [List.nil_append, pyWords_cons_space hc]
    simp [pyWords]
  | case2 d cs hd ih =>
    intro b
    rw [List.cons_append, pyWords_cons_space hd, pyWords_cons_space hd, ih b]
  | case3 d cs hd ih =>
    intro b
    have hd' : pySpace d = false := by simpa using hd
    rw [List.cons_append, pyWords_cons_nonspace hd', pyWords_cons_nonspace hd']
    have hqc : (fun d => !pySpace d) c = false := by simp [hc]
    cases hall : cs.all (fun d => !pySpace d) with
    | true =>
      rw [takeWhile_append_of_all _ _ _ hall, dropWhile_append_of_all _ _ _ hall]
      rw [takeWhile_of_all _ _ hall, dropWhile_of_all _ _ hall]
      simp only [List.takeWhile_cons, hqc]
      rw [List.dropWhile_cons_of_neg (by simp [hc]), pyWords_cons_space hc]
      simp [pyWords]
    | false =>
      rw [takeWhile_append_of_not_all _ _ _ hall, dropWhile_append_of_not_all _ _ _ hall]
      rw [List.cons_append, ih b]

theorem pyWords_dropWhile_space : ∀ (l : List Char),
    pyWords (l.dropWhile pySpace) = pyWords l := by
  intro l
  induction l with
  | nil => rfl
  | cons c cs ih =>
    by_cases hc : pySpace c
    · rw [List.dropWhile_cons_of_pos hc, ih, pyWords_cons_space hc]
    · rw [List.dropWhile_cons_of_neg hc]

theorem pyWords_single_word (w : List Char) (hne : w ≠ [])
    (hns : ∀ c ∈ w, pySpace c = false) : pyWords w = [w] := by
  cases w with
  | nil => exact absurd rfl hne
  | cons d ds =>
    have hd : pySpace d = false := hns d (by simp)
    rw [pyWords_cons_nonspace hd]
    have hall : ds.all (fun c => !pySpace c) = true := by
      rw [List.all_eq_true]
      intro c hcm
      simp [hns c (by simp [hcm])]
    rw [takeWhile_of_all _ _ hall, dropWhile_of_all _ _ hall]
    simp [pyWords]

theorem pyWords_append_trailing_space (l : List Char) (c : Char) (hc : pySpace c = true) :
    pyWords (l ++ [c]) = pyWords l := by
  rw [pyWords_append_space c hc l []]
  simp [pyWords]

theorem pyWords_reverse_dropWhile : ∀ (m : List Char),
    pyWords ((m.reverse.dropWhile pySpace).reverse) = pyWords m := by
  intro m
  induction m using List.reverseRecOn with
  | nil => rfl
  | append_singleton xs x ih =>
    by_cases hx : pySpace x
    · rw [List.reverse_append, List.reverse_singleton, List.singleton_append,
        List.dropWhile_cons_of_pos hx, ih, pyWords_append_trailing_space xs x hx]
    · rw [List.reverse_append, List.reverse_singleton, List.singleton_append,
        List.dropWhile_cons_of_neg hx]
      simp

theorem pyWords_strip (l : List Char) : pyWords (pyStrip l) = pyWords l := by
  unfold pyStrip
  rw [pyWords_reverse_dropWhile, pyWords_dropWhile_space]

theorem pyStrip_length_le (l : List Char) : (pyStrip l).length ≤ l.length := by
  unfold pyStrip
  rw [List.length_reverse]
  calc ((l.dropWhile pySpace).reverse.dropWhile pySpace).length
      ≤ (l.dropWhile pySpace).reverse.length := dropWhile_length_le _ _
    _ = (l.dropWhile pySpace).length := List.length_reverse _
    _ ≤ l.length := dropWhile_length_le _ _

theorem pyStrip_subset (l : List Char) : ∀ c ∈ pyStrip l, c ∈ l := by
  intro c hc
  unfold pyStrip at hc
  rw [List.mem_reverse] at hc
  have h1 := List.dropWhile_subset (p := pySpace) hc
  rw [List.mem_reverse] at h1
  exact List.dropWhile_subset (p := pySpace) h1

/-- Segments appended by the splitting loops are within the limit or are a
single whitespace-free word. -/
def seg_ok (limit : Nat) (p : List Char) : Prop :=
  p.length ≤ limit ∨ ∀ c ∈ p, pySpace c = false

theorem seg_ok_strip (limit : Nat) (p : List Char) (h : seg_ok limit p) :
    seg_ok limit (pyStrip p) := by
  rcases h with h | h
  · exact Or.inl (Nat.le_trans (pyStrip_length_le p) h)
  · exact Or.inr fun c hc => h c (pyStrip_subset p c hc)


theorem split_sentences_aux_join : ∀ (l acc : List Char),
    ((split_sentences_aux l acc).map pyWords).flatten = pyWords (acc.reverse ++ l) := by
  intro l acc
  induction l, acc using split_sentences_aux.induct with
  | case1 acc =>
    simp [split_sentences_aux, pyWords]
  | case2 c rest acc hcond ih =>
    have hc : pySpace c = true := by
      simp only [Bool.and_eq_true] at hcond
      exact hcond.1
    have haux : split_sentences_aux (c :: rest) acc =
        acc.reverse :: split_sentences_aux (rest.dropWhile pySpace) [] := by
      rw [split_sentences_aux.eq_def]
      simp only [hcond, if_true]
    rw [haux]
    simp only [List.map_cons, List.flatten_cons]
    rw [ih]
    simp only [List.reverse_nil, List.nil_append]
    rw [pyWords_dropWhile_space, pyWords_append_space c hc acc.reverse rest]
  | case3 c rest acc hcond ih =>
    have haux : split_sentences_aux (c :: rest) acc =
        split_sentences_aux rest (c :: acc) := by
      rw [split_sentences_aux.eq_def]
      simp only [if_neg hcond]
    rw [haux, ih, List.reverse_cons, List.append_assoc, List.singleton_append]

theorem split_sentences_join (t : List Char) :
    ((split_sentences t).map pyWords).flatten = pyWords t := by
  unfold split_sentences
  rw [split_sentences_aux_join]
  simp

theorem word_accumulate_flatten (limit : Nat) : ∀ (ws posts : List (List Char)) (wp : List Char),
    (∀ w ∈ ws, w ≠ [] ∧ ∀ c ∈ w, pySpace c = false) →
    ((word_accumulate limit ws posts wp).1.map pyWords).flatten ++
        pyWords (word_accumulate limit ws posts wp).2 =
      (posts.map pyWords).flatten ++ pyWords wp ++ ws := by
  intro ws
  induction ws with
  | nil =>
    intro posts wp _
    simp [word_accumulate]
  | cons w ws ih =>
    intro posts wp hws
    have hw := hws w (by simp)
    have hrest : ∀ w' ∈ ws, w' ≠ [] ∧ ∀ c ∈ w', pySpace c = false :=
      fun w' h => hws w' (by simp [h])
    by_cases hover : limit < wp.length + w.length + 1
    · rw [show word_accumulate limit (w :: ws) posts wp =
          word_accumulate limit ws (posts ++ [pyStrip wp]) w from by
        simp [word_accumulate, hover]]
      rw [ih _ _ hrest]
      simp only [List.map_append, List.flatten_append, List.map_cons, List.map_nil,
        List.flatten_cons, List.flatten_nil, List.append_nil]
      rw [pyWords_strip, pyWords_single_word w hw.1 hw.2]
      simp [List.append_assoc]
    · rw [show word_accumulate limit (w :: ws) posts wp =
          word_accumulate limit ws posts (wp ++ ' ' :: w) from by
        simp [word_accumulate, hover]]
      rw [ih _ _ hrest]
      rw [pyWords_append_space ' ' (by decide) wp w, pyWords_single_word w hw.1 hw.2]
      simp [List.append_assoc]

theorem word_accumulate_inv (limit : Nat) : ∀ (ws posts : List (List Char)) (wp : List Char),
    (∀ w ∈ ws, ∀ c ∈ w, pySpace c = false) →
    (∀ p ∈ posts, seg_ok limit p) → seg_ok limit wp →
    (∀ p ∈ (word_accumulate limit ws posts wp).1, seg_ok limit p) ∧
      seg_ok limit (word_accumulate limit ws posts wp).2 := by
  intro ws
  induction ws with
  | nil =>
    intro posts wp _ hp hwp
    exact ⟨hp, hwp⟩
  | cons w ws ih =>
    intro posts wp hws hp hwp
    have hrest : ∀ w' ∈ ws, ∀ c ∈ w', pySpace c = false :=
      fun w' h => hws w' (by simp [h])
    by_cases hover : limit < wp.length + w.length + 1
    · rw [show word_accumulate limit (w :: ws) posts wp =
          word_accumulate limit ws (posts ++ [pyStrip wp]) w from by
        simp [word_accumulate, hover]]
      refine ih _ _ hrest ?_ ?_
      · intro p hpm
        rcases List.mem_append.mp hpm with h | h
        · exact hp p h
        · rcases List.mem_singleton.mp h with rfl
          exact seg_ok_strip limit wp hwp
      · exact Or.inr (hws w (by simp))
    · rw [show word_accumulate limit (w :: ws) posts wp =
          word_accumulate limit ws posts (wp ++ ' ' :: w) from by
        simp [word_accumulate, hover]]
      refine ih _ _ hrest hp ?_
      left
      simp only [List.length_append, List.length_cons]
      omega

theorem flatten_append_flush (posts : List (List Char)) (tail : List Char) :
    (((if tail.isEmpty then posts else posts ++ [pyStrip tail]).map pyWords).flatten) =
      (posts.map pyWords).flatten ++ pyWords tail := by
  by_cases ht : tail.isEmpty
  · have : tail = [] := by
      cases tail with
      | nil => rfl
      | cons a as => simp at ht
    rw [if_pos ht, this]
    simp [pyWords]
  · rw [if_neg ht]
    simp only [List.map_append, List.flatten_append, List.map_cons, List.map_nil,
      List.flatten_cons, List.flatten_nil, List.append_nil]
    rw [pyWords_strip]

theorem sentence_accumulate_flatten (limit : Nat) :
    ∀ (ss posts : List (List Char)) (cur : List Char),
    ((sentence_accumulate limit ss posts cur).1.map pyWords).flatten ++
        pyWords (sentence_accumulate limit ss posts cur).2 =
      (posts.map pyWords).flatten ++ pyWords cur ++ ((ss.map pyWords).flatten) := by
  intro ss
  induction ss with
  | nil =>
    intro posts cur
    simp [sentence_accumulate]
  | cons s0 ss ih =>
    intro posts cur
    have hstrip : pyWords (pyStrip s0) = pyWords s0 := pyWords_strip s0
    by_cases hse : (pyStrip s0).isEmpty = true
    · rw [show sentence_accumulate limit (s0 :: ss) posts cur =
          sentence_accumulate limit ss posts cur from by
        simp only [sentence_accumulate, hse, if_true]]
      rw [ih]
      have hs0 : pyWords s0 = [] := by
        rw [← hstrip]
        have : pyStrip s0 = [] := by
          cases h : pyStrip s0 with
          | nil => rfl
          | cons a as => rw [h] at hse; simp at hse
        rw [this, pyWords_nil]
      simp [hs0, List.append_assoc]
    · by_cases hover : limit < cur.length + (pyStrip s0).length + 1
      · by_cases hbig : limit < (pyStrip s0).length
        · rw [show sentence_accumulate limit (s0 :: ss) posts cur =
              sentence_accumulate limit ss
                (if (word_accumulate limit (pyWords (pyStrip s0))
                      (if cur.isEmpty then posts else posts ++ [pyStrip cur]) []).2.isEmpty
                 then (word_accumulate limit (pyWords (pyStrip s0))
                      (if cur.isEmpty then posts else posts ++ [pyStrip cur]) []).1
                 else (word_accumulate limit (pyWords (pyStrip s0))
                      (if cur.isEmpty then posts else posts ++ [pyStrip cur]) []).1 ++
                   [pyStrip (word_accumulate limit (pyWords (pyStrip s0))
                      (if cur.isEmpty then posts else posts ++ [pyStrip cur]) []).2]) []
              from by
            simp only [sentence_accumulate, if_neg hse, if_pos hover, if_pos hbig]]
          rw [ih]
          rw [flatten_append_flush]
          have hwa := word_accumulate_flatten limit (pyWords (pyStrip s0))
            (if cur.isEmpty then posts else posts ++ [pyStrip cur]) []
            (pyWords_mem_nonspace (pyStrip s0))
          rw [pyWords_nil, List.append_nil] at hwa
          rw [hwa, flatten_append_flush, hstrip]
          simp [pyWords, List.append_assoc]
        · rw [show sentence_accumulate limit (s0 :: ss) posts cur =
              sentence_accumulate limit ss
                (if cur.isEmpty then posts else posts ++ [pyStrip cur]) (pyStrip s0)
              from by
            simp only [sentence_accumulate, if_neg hse, if_pos hover, if_neg hbig]]
          rw [ih, flatten_append_flush, hstrip]
          simp [List.append_assoc]
      · rw [show sentence_accumulate limit (s0 :: ss) posts cur =
            sentence_accumulate limit ss posts
              (if cur.isEmpty then pyStrip s0 else cur ++ ' ' :: pyStrip s0)
            from by
          simp only [sentence_accumulate, if_neg hse, if_neg hover]]
        rw [ih]
        by_cases hc : cur.isEmpty
        · have : cur = [] := by
            cases cur with
            | nil => rfl
            | cons a as => simp at hc
          rw [if_pos hc, this, hstrip]
          simp [pyWords, List.append_assoc]
        · rw [if_neg hc, pyWords_append_space ' ' (by decide) cur (pyStrip s0), hstrip]
          simp [List.append_assoc]

theorem posts_flush_ok (limit : Nat) (posts : List (List Char)) (tail : List Char)
    (hp : ∀ p ∈ posts, seg_ok limit p) (ht : seg_ok limit tail) :
    ∀ p ∈ (if tail.isEmpty then posts else posts ++ [pyStrip tail]), seg_ok limit p := by
  intro p hpm
  by_cases h : tail.isEmpty
  · rw [if_pos h] at hpm
    exact hp p hpm
  · rw [if_neg h] at hpm
    rcases List.mem_append.mp hpm with hm | hm
    · exact hp p hm
    · rcases List.mem_singleton.mp hm with rfl
      exact seg_ok_strip limit tail ht

theorem sentence_accumulate_inv (limit : Nat) :
    ∀ (ss posts : List (List Char)) (cur : List Char),
    (∀ p ∈ posts, seg_ok limit p) → cur.length ≤ limit →
    (∀ p ∈ (sentence_accumulate limit ss posts cur).1, seg_ok limit p) ∧
      (sentence_accumulate limit ss posts cur).2.length ≤ limit := by
  intro ss
  induction ss with
  | nil =>
    intro posts cur hp hc
    exact ⟨hp, hc⟩
  | cons s0 ss ih =>
    intro posts cur hp hc
    by_cases hse : (pyStrip s0).isEmpty = true
    · rw [show sentence_accumulate limit (s0 :: ss) posts cur =
          sentence_accumulate limit ss posts cur from by
        simp only [sentence_accumulate, hse, if_true]]
      exact ih posts cur hp hc
    · by_cases hover : limit < cur.length + (pyStrip s0).length + 1
      · have hp1 : ∀ p ∈ (if cur.isEmpty then posts else posts ++ [pyStrip cur]),
            seg_ok limit p := posts_flush_ok limit posts cur hp (Or.inl hc)
        by_cases hbig : limit < (pyStrip s0).length
        · rw [show sentence_accumulate limit (s0 :: ss) posts cur =
              sentence_accumulate limit ss
                (if (word_accumulate limit (pyWords (pyStrip s0))
                      (if cur.isEmpty then posts else posts ++ [pyStrip cur]) []).2.isEmpty
                 then (word_accumulate limit (pyWords (pyStrip s0))
                      (if cur.isEmpty then posts else posts ++ [pyStrip cur]) []).1
                 else (word_accumulate limit (pyWords (pyStrip s0))
                      (if cur.isEmpty then posts else posts ++ [pyStrip cur]) []).1 ++
                   [pyStrip (word_accumulate limit (pyWords (pyStrip s0))
                      (if cur.isEmpty then posts else posts ++ [pyStrip cur]) []).2]) []
              from by
            simp only [sentence_accumulate, if_neg hse, if_pos hover, if_pos hbig]]
          have hwa := word_accumulate_inv limit (pyWords (pyStrip s0))
            (if cur.isEmpty then posts else posts ++ [pyStrip cur]) []
            (fun w hw => (pyWords_mem_nonspace (pyStrip s0) w hw).2)
            hp1 (Or.inl (by simp))
          refine ih _ [] (posts_flush_ok limit _ _ hwa.1 hwa.2) (by simp)
        · rw [show sentence_accumulate limit (s0 :: ss) posts cur =
              sentence_accumulate limit ss
                (if cur.isEmpty then posts else posts ++ [pyStrip cur]) (pyStrip s0)
              from by
            simp only [sentence_accumulate, if_neg hse, if_pos hover, if_neg hbig]]
          exact ih _ _ hp1 (by omega)
      · rw [show sentence_accumulate limit (s0 :: ss) posts cur =
            sentence_accumulate limit ss posts
              (if cur.isEmpty then pyStrip s0 else cur ++ ' ' :: pyStrip s0)
            from by
          simp only [sentence_accumulate, if_neg hse, if_neg hover]]
        refine ih posts _ hp ?_
        by_cases hcc : cur.isEmpty
        · rw [if_pos hcc]
          omega
        · rw [if_neg hcc]
          simp only [List.length_append, List.length_cons]
          omega

theorem filter_nonempty_flatten : ∀ (l : List (List Char)),
    ((l.filter (fun p => !p.isEmpty)).map pyWords).flatten = (l.map pyWords).flatten := by
  intro l
  induction l with
  | nil => rfl
  | cons p ps ih =>
    rw [List.filter_cons]
    by_cases hp : p.isEmpty
    · have hp0 : p = [] := by
        cases p with
        | nil => rfl
        | cons a as => simp at hp
      subst hp0
      simp [ih, pyWords_nil]
    · have hp' : (!p.isEmpty) = true := by simp [hp]
      simp only [hp', if_true, List.map_cons, List.flatten_cons, ih]

/-- C2 (amended): split_text_for_bluesky returns an empty list on empty input;
every returned segment is non-empty; every returned segment either fits the
limit or contains no whitespace at all (the single-word fallback keeps an
over-limit word as its own segment); and the whitespace-separated words of the
concatenated segments are exactly the words of the input, in order. -/
theorem C2_split_text_guarantees (text : List Char) (limit : Nat) :
    (text = [] → split_text_for_bluesky text limit = [])
    ∧ (∀ p ∈ split_text_for_bluesky text limit, p ≠ [])
    ∧ (∀ p ∈ split_text_for_bluesky text limit,
        p.length ≤ limit ∨ ∀ c ∈ p, pySpace c = false)
    ∧ ((split_text_for_bluesky text limit).map pyWords).flatten = pyWords text := by
  by_cases htext : text.isEmpty
  · have ht : text = [] := by
      cases text with
      | nil => rfl
      | cons a as => simp at htext
    have hres : split_text_for_bluesky text limit = [] := by
      unfold split_text_for_bluesky
      rw [if_pos htext]
    refine ⟨fun _ => hres, ?_, ?_, ?_⟩
    · intro p hp
      rw [hres] at hp
      simp at hp
    · intro p hp
      rw [hres] at hp
      simp at hp
    · rw [hres, ht, pyWords_nil]
      rfl
  · have hres : split_text_for_bluesky text limit =
        (if (sentence_accumulate limit (split_sentences text) [] []).2.isEmpty
         then (sentence_accumulate limit (split_sentences text) [] []).1
         else (sentence_accumulate limit (split_sentences text) [] []).1 ++
           [pyStrip (sentence_accumulate limit (split_sentences text) [] []).2]).filter
          (fun p => !p.isEmpty) := by
      unfold split_text_for_bluesky
      rw [if_neg htext]
    have hinv := sentence_accumulate_inv limit (split_sentences text) [] []
      (by intro p hp; simp at hp) (by simp)
    refine ⟨fun h => absurd (by rw [h]; rfl) htext, ?_, ?_, ?_⟩
    · intro p hp
      rw [hres] at hp
      have := (List.mem_filter.mp hp).2
      simpa using this
    · intro p hp
      rw [hres] at hp
      have hpm := (List.mem_filter.mp hp).1
      exact posts_flush_ok limit _ _ hinv.1 (Or.inl hinv.2) p hpm
    · rw [hres, filter_nonempty_flatten, flatten_append_flush,
        sentence_accumulate_flatten, split_sentences_join]
      simp [pyWords_nil]

set_option maxRecDepth 4096 in
/-- C2 counterexample: the claim promises every returned segment has length at
most the limit, but a single six-character word split with limit 5 is returned
as a six-character segment. -/
theorem C2_limit_counterexample :
    split_text_for_bluesky (str "aaaaaa") 5 = [str "aaaaaa"] ∧
    5 < (str "aaaaaa").length := by
  constructor
  · simp +decide [split_text_for_bluesky, split_sentences, split_sentences_aux,
      sentence_accumulate, word_accumulate, pyWords, pyStrip, pySpace, sentence_end, str]
  · decide

/-- C2 witness: the amended theorem applied at the empty input and at a
concrete non-empty input. -/
theorem C2_split_text_guarantees_witness :
    split_text_for_bluesky [] 300 = [] ∧
    ((split_text_for_bluesky (str "Hi there. Bye.") 10).map pyWords).flatten =
      pyWords (str "Hi there. Bye.") :=
  ⟨(C2_split_text_guarantees [] 300).1 rfl,
   (C2_split_text_guarantees (str "Hi there. Bye.") 10).2.2.2⟩
